import Mathlib

/-!
Verification of the UCI JNI bridge core
(`src/service/uci/jni/src/uci_jni_android_new.rs`): the TLV codec, the
phase-list parser, the multicast controlee-list resolver, the dispatcher
destruction check, and the scalar conversions used by the query helpers.

Bytes are modelled as `Nat` (values `< 256` where a claim is about byte
buffers), machine-integer casts are spelled out with `%`, and fallible
Rust functions returning `Result<T, Error>` become `Except Error T`.
-/

namespace UwbJni

/-- The subset of `uwb_core::error::Error` constructors used by the bridged
functions. -/
inductive Error where
  | BadParameters
  | ForeignFunctionInterface
  | Unknown
  deriving DecidableEq, Repr

/-- `uwb_core::params::AppConfigTlv`: a 1-byte tag and a byte-sequence value.
The `RawAppConfigTlv` wrapper that `parse` produces is converted to this type
by `.into()` in the source; the wrapper adds nothing, so it is collapsed. -/
structure AppConfigTlv where
  t : Nat
  v : List Nat
  deriving DecidableEq, Repr

/-- `uwb_core::params::RadarConfigTlv`: same wire shape as `AppConfigTlv`,
kept as a distinct type as in the source. -/
structure RadarConfigTlv where
  t : Nat
  v : List Nat
  deriving DecidableEq, Repr

/-- Modelled from the spec: `RawAppConfigTlv::parse` (uwb_core crate, not under
src/). The spec's wire format is `[tag:1 byte][length:1 byte][value: length
bytes]`; parse reads one record from the front of the buffer, tolerating
trailing bytes, and fails when the header cannot be read or the declared
length exceeds the remaining buffer. -/
def RawAppConfigTlv.parse (b : List Nat) : Option AppConfigTlv :=
  match b with
  | t :: l :: rest => if l ≤ rest.length then some ⟨t, rest.take l⟩ else none
  | _ => none

/-- Modelled from the spec: `RadarConfigTlv::parse` (uwb_core crate, not under
src/), identical wire format to `RawAppConfigTlv::parse`. -/
def RadarConfigTlv.parse (b : List Nat) : Option RadarConfigTlv :=
  match b with
  | t :: l :: rest => if l ≤ rest.length then some ⟨t, rest.take l⟩ else none
  | _ => none

/-- The loop body of `parse_app_config_tlv_vec`: runs `no_of_params`
iterations, each parsing one TLV from the front and advancing the buffer by
`tlv.v.len() + TLV_HEADER_SIZE` via `byte_array.get(..)` (which fails when the
start index exceeds the buffer length). Returns the parsed records together
with the accumulated `parsed_tlvs_len`. -/
def parse_app_config_tlv_loop : Nat → List Nat → Except Error (List AppConfigTlv × Nat)
  | 0, _ => .ok ([], 0)
  | n + 1, byte_array =>
    match RawAppConfigTlv.parse byte_array with
    | none => .error .BadParameters
    | some tlv =>
      if tlv.v.length + 2 ≤ byte_array.length then
        match parse_app_config_tlv_loop n (byte_array.drop (tlv.v.length + 2)) with
        | .ok (tlvs, len) => .ok (tlv :: tlvs, tlv.v.length + 2 + len)
        | .error e => .error e
      else .error .BadParameters

/-- `parse_app_config_tlv_vec` (source lines 335-352): parse exactly
`no_of_params` TLV records and require that the accumulated consumed length
equals the buffer length. -/
def parse_app_config_tlv_vec (no_of_params : Nat) (byte_array : List Nat) :
    Except Error (List AppConfigTlv) :=
  match parse_app_config_tlv_loop no_of_params byte_array with
  | .ok (tlvs, parsed_tlvs_len) =>
    if parsed_tlvs_len ≠ byte_array.length then .error .BadParameters else .ok tlvs
  | .error e => .error e

/-- The loop body of `parse_radar_config_tlv_vec`, identical in structure to
`parse_app_config_tlv_loop`. -/
def parse_radar_config_tlv_loop : Nat → List Nat → Except Error (List RadarConfigTlv × Nat)
  | 0, _ => .ok ([], 0)
  | n + 1, byte_array =>
    match RadarConfigTlv.parse byte_array with
    | none => .error .BadParameters
    | some tlv =>
      if tlv.v.length + 2 ≤ byte_array.length then
        match parse_radar_config_tlv_loop n (byte_array.drop (tlv.v.length + 2)) with
        | .ok (tlvs, len) => .ok (tlv :: tlvs, tlv.v.length + 2 + len)
        | .error e => .error e
      else .error .BadParameters

/-- `parse_radar_config_tlv_vec` (source lines 354-374). -/
def parse_radar_config_tlv_vec (no_of_params : Nat) (byte_array : List Nat) :
    Except Error (List RadarConfigTlv) :=
  match parse_radar_config_tlv_loop no_of_params byte_array with
  | .ok (tlvs, parsed_tlvs_len) =>
    if parsed_tlvs_len ≠ byte_array.length then .error .BadParameters else .ok tlvs
  | .error e => .error e

/-- A well-formed TLV record over bytes: tag and value bytes fit in one byte
each and the value length fits the 1-byte length field. -/
def AppConfigTlv.WF (tlv : AppConfigTlv) : Prop :=
  tlv.t < 256 ∧ tlv.v.length < 256 ∧ ∀ b ∈ tlv.v, b < 256

instance (tlv : AppConfigTlv) : Decidable tlv.WF := by
  unfold AppConfigTlv.WF; infer_instance

/-- Well-formedness for radar TLV records. -/
def RadarConfigTlv.WF (tlv : RadarConfigTlv) : Prop :=
  tlv.t < 256 ∧ tlv.v.length < 256 ∧ ∀ b ∈ tlv.v, b < 256

instance (tlv : RadarConfigTlv) : Decidable tlv.WF := by
  unfold RadarConfigTlv.WF; infer_instance

/-- The wire encoding of one app-config TLV record. -/
def AppConfigTlv.encode (tlv : AppConfigTlv) : List Nat :=
  tlv.t :: tlv.v.length :: tlv.v

/-- The wire encoding of a sequence of app-config TLV records. -/
def encodeAppTlvs (rs : List AppConfigTlv) : List Nat :=
  (rs.map AppConfigTlv.encode).flatten

/-- The wire encoding of one radar-config TLV record. -/
def RadarConfigTlv.encode (tlv : RadarConfigTlv) : List Nat :=
  tlv.t :: tlv.v.length :: tlv.v

/-- The wire encoding of a sequence of radar-config TLV records. -/
def encodeRadarTlvs (rs : List RadarConfigTlv) : List Nat :=
  (rs.map RadarConfigTlv.encode).flatten

theorem encodeAppTlvs_cons (r : AppConfigTlv) (rs : List AppConfigTlv) :
    encodeAppTlvs (r :: rs) = r.t :: r.v.length :: (r.v ++ encodeAppTlvs rs) := by
  simp [encodeAppTlvs, AppConfigTlv.encode]

theorem encodeRadarTlvs_cons (r : RadarConfigTlv) (rs : List RadarConfigTlv) :
    encodeRadarTlvs (r :: rs) = r.t :: r.v.length :: (r.v ++ encodeRadarTlvs rs) := by
  simp [encodeRadarTlvs, RadarConfigTlv.encode]

theorem encodeAppTlvs_append (a b : List AppConfigTlv) :
    encodeAppTlvs (a ++ b) = encodeAppTlvs a ++ encodeAppTlvs b := by
  simp only [encodeAppTlvs, List.map_append, List.flatten_append]

theorem parse_app_config_tlv_loop_append (rs : List AppConfigTlv) (tail : List Nat) (n : Nat) :
    parse_app_config_tlv_loop (rs.length + n) (encodeAppTlvs rs ++ tail) =
      match parse_app_config_tlv_loop n tail with
      | .ok (ts, len) => .ok (rs ++ ts, (encodeAppTlvs rs).length + len)
      | .error e => .error e := by
  induction rs generalizing n with
  | nil =>
    cases h : parse_app_config_tlv_loop n tail with
    | ok p => cases p with | mk ts len => simp [encodeAppTlvs, h]
    | error e => simp [encodeAppTlvs, h]
  | cons r rs ih =>
    have h1 : (r :: rs).length + n = (rs.length + n) + 1 := by
      simp [List.length_cons]; omega
    rw [h1, encodeAppTlvs_cons]
    have hbuf : (r.t :: r.v.length :: (r.v ++ encodeAppTlvs rs)) ++ tail =
        r.t :: r.v.length :: (r.v ++ (encodeAppTlvs rs ++ tail)) := by
      simp [List.append_assoc]
    rw [hbuf]
    have hle : r.v.length ≤ (r.v ++ (encodeAppTlvs rs ++ tail)).length := by
      simp [List.length_append]
    have htake : (r.v ++ (encodeAppTlvs rs ++ tail)).take r.v.length = r.v :=
      List.take_left r.v _
    have hdrop : (r.v ++ (encodeAppTlvs rs ++ tail)).drop r.v.length =
        encodeAppTlvs rs ++ tail := List.drop_left r.v _
    have hle2 : r.v.length + 2 ≤
        (r.t :: r.v.length :: (r.v ++ (encodeAppTlvs rs ++ tail))).length := by
      simp [List.length_append]
    simp only [parse_app_config_tlv_loop, RawAppConfigTlv.parse, if_pos hle, htake,
      if_pos hle2, List.drop_succ_cons, hdrop]
    rw [ih]
    cases h : parse_app_config_tlv_loop n tail with
    | ok p =>
      cases p with
      | mk ts len =>
        simp [encodeAppTlvs_cons, List.length_append]
        omega
    | error e => simp

theorem parse_radar_config_tlv_loop_append (rs : List RadarConfigTlv) (tail : List Nat)
    (n : Nat) :
    parse_radar_config_tlv_loop (rs.length + n) (encodeRadarTlvs rs ++ tail) =
      match parse_radar_config_tlv_loop n tail with
      | .ok (ts, len) => .ok (rs ++ ts, (encodeRadarTlvs rs).length + len)
      | .error e => .error e := by
  induction rs generalizing n with
  | nil =>
    cases h : parse_radar_config_tlv_loop n tail with
    | ok p => cases p with | mk ts len => simp [encodeRadarTlvs, h]
    | error e => simp [encodeRadarTlvs, h]
  | cons r rs ih =>
    have h1 : (r :: rs).length + n = (rs.length + n) + 1 := by
      simp [List.length_cons]; omega
    rw [h1, encodeRadarTlvs_cons]
    have hbuf : (r.t :: r.v.length :: (r.v ++ encodeRadarTlvs rs)) ++ tail =
        r.t :: r.v.length :: (r.v ++ (encodeRadarTlvs rs ++ tail)) := by
      simp [List.append_assoc]
    rw [hbuf]
    have hle : r.v.length ≤ (r.v ++ (encodeRadarTlvs rs ++ tail)).length := by
      simp [List.length_append]
    have htake : (r.v ++ (encodeRadarTlvs rs ++ tail)).take r.v.length = r.v :=
      List.take_left r.v _
    have hdrop : (r.v ++ (encodeRadarTlvs rs ++ tail)).drop r.v.length =
        encodeRadarTlvs rs ++ tail := List.drop_left r.v _
    have hle2 : r.v.length + 2 ≤
        (r.t :: r.v.length :: (r.v ++ (encodeRadarTlvs rs ++ tail))).length := by
      simp [List.length_append]
    simp only [parse_radar_config_tlv_loop, RadarConfigTlv.parse, if_pos hle, htake,
      if_pos hle2, List.drop_succ_cons, hdrop]
    rw [ih]
    cases h : parse_radar_config_tlv_loop n tail with
    | ok p =>
      cases p with
      | mk ts len =>
        simp [encodeRadarTlvs_cons, List.length_append]
        omega
    | error e => simp

theorem parse_app_config_tlv_loop_full (rs : List AppConfigTlv) (tail : List Nat) :
    parse_app_config_tlv_loop rs.length (encodeAppTlvs rs ++ tail) =
      .ok (rs, (encodeAppTlvs rs).length) := by
  have h := parse_app_config_tlv_loop_append rs tail 0
  simpa [parse_app_config_tlv_loop] using h

theorem parse_radar_config_tlv_loop_full (rs : List RadarConfigTlv) (tail : List Nat) :
    parse_radar_config_tlv_loop rs.length (encodeRadarTlvs rs ++ tail) =
      .ok (rs, (encodeRadarTlvs rs).length) := by
  have h := parse_radar_config_tlv_loop_append rs tail 0
  simpa [parse_radar_config_tlv_loop] using h

theorem encodeAppTlvs_length (rs : List AppConfigTlv) :
    (encodeAppTlvs rs).length = (rs.map (fun tlv => 2 + tlv.v.length)).sum := by
  induction rs with
  | nil => simp [encodeAppTlvs]
  | cons r rs ih => simp [encodeAppTlvs_cons, ih]; omega

theorem encodeRadarTlvs_length (rs : List RadarConfigTlv) :
    (encodeRadarTlvs rs).length = (rs.map (fun tlv => 2 + tlv.v.length)).sum := by
  induction rs with
  | nil => simp [encodeRadarTlvs]
  | cons r rs ih => simp [encodeRadarTlvs_cons, ih]; omega

example : parse_app_config_tlv_vec 2 [0, 1, 1, 1, 1, 1] =
    .ok [⟨0, [1]⟩, ⟨1, [1]⟩] := rfl

example : parse_app_config_tlv_vec 2 [0, 1, 1, 1, 1, 1, 9] =
    .error .BadParameters := rfl

example : parse_app_config_tlv_vec 1 [0, 1, 1, 1, 1, 1] =
    .error .BadParameters := rfl

example : parse_app_config_tlv_vec 3 [0, 1, 1, 1, 1, 1] =
    .error .BadParameters := rfl

/-- C1: for every count N and buffer consisting of exactly N well-formed TLV
records, `parse_app_config_tlv_vec` and `parse_radar_config_tlv_vec` succeed
and return exactly the N records, whose total encoded size equals the buffer
length; appending one extra trailing byte makes the same call fail with
`BadParameters`. -/
theorem tlv_vec_roundtrip :
    (∀ rs : List AppConfigTlv, (∀ tlv ∈ rs, tlv.WF) →
      parse_app_config_tlv_vec rs.length (encodeAppTlvs rs) = .ok rs ∧
      (rs.map (fun tlv => 2 + tlv.v.length)).sum = (encodeAppTlvs rs).length ∧
      ∀ b, b < 256 →
        parse_app_config_tlv_vec rs.length (encodeAppTlvs rs ++ [b]) =
          .error .BadParameters) ∧
    (∀ rs : List RadarConfigTlv, (∀ tlv ∈ rs, tlv.WF) →
      parse_radar_config_tlv_vec rs.length (encodeRadarTlvs rs) = .ok rs ∧
      (rs.map (fun tlv => 2 + tlv.v.length)).sum = (encodeRadarTlvs rs).length ∧
      ∀ b, b < 256 →
        parse_radar_config_tlv_vec rs.length (encodeRadarTlvs rs ++ [b]) =
          .error .BadParameters) := by
  constructor
  · intro rs _
    refine ⟨?_, (encodeAppTlvs_length rs).symm, ?_⟩
    · have h := parse_app_config_tlv_loop_full rs []
      rw [List.append_nil] at h
      simp [parse_app_config_tlv_vec, h]
    · intro b _
      have h := parse_app_config_tlv_loop_full rs [b]
      simp [parse_app_config_tlv_vec, h, List.length_append]
  · intro rs _
    refine ⟨?_, (encodeRadarTlvs_length rs).symm, ?_⟩
    · have h := parse_radar_config_tlv_loop_full rs []
      rw [List.append_nil] at h
      simp [parse_radar_config_tlv_vec, h]
    · intro b _
      have h := parse_radar_config_tlv_loop_full rs [b]
      simp [parse_radar_config_tlv_vec, h, List.length_append]

/-- Witness for C1: the spec's concrete scenario, `[0,1,1, 1,1,1]` with count 2
parses to the two records, and the same buffer with a trailing `9` fails. -/
theorem tlv_vec_roundtrip_witness :
    parse_app_config_tlv_vec 2 [0, 1, 1, 1, 1, 1] = .ok [⟨0, [1]⟩, ⟨1, [1]⟩] ∧
    parse_app_config_tlv_vec 2 [0, 1, 1, 1, 1, 1, 9] = .error .BadParameters ∧
    parse_radar_config_tlv_vec 1 [7, 2, 3, 4] = .ok [⟨7, [3, 4]⟩] := by
  have h := tlv_vec_roundtrip.1 [⟨0, [1]⟩, ⟨1, [1]⟩] (by decide)
  have hr := tlv_vec_roundtrip.2 [⟨7, [3, 4]⟩] (by decide)
  exact ⟨h.1, h.2.2 9 (by decide), hr.1⟩

/-- C6: `parse_app_config_tlv_vec` fails with `BadParameters` when a 2-byte
header cannot be read, when a record's declared length exceeds the remaining
buffer, or when the buffer encodes a number of well-formed records different
from the requested count. -/
theorem parse_app_config_error_conditions (N : Nat) :
    (∀ byte_array : List Nat, 1 ≤ N → byte_array.length < 2 →
      parse_app_config_tlv_vec N byte_array = .error .BadParameters) ∧
    (∀ t l : Nat, ∀ rest : List Nat, 1 ≤ N → rest.length < l →
      parse_app_config_tlv_vec N (t :: l :: rest) = .error .BadParameters) ∧
    (∀ rs : List AppConfigTlv, (∀ tlv ∈ rs, tlv.WF) → N ≠ rs.length →
      parse_app_config_tlv_vec N (encodeAppTlvs rs) = .error .BadParameters) := by
  refine ⟨?_, ?_, ?_⟩
  · intro byte_array h1 h2
    cases N with
    | zero => omega
    | succ m =>
      cases byte_array with
      | nil => simp [parse_app_config_tlv_vec, parse_app_config_tlv_loop,
          RawAppConfigTlv.parse]
      | cons a tl =>
        cases tl with
        | nil => simp [parse_app_config_tlv_vec, parse_app_config_tlv_loop,
            RawAppConfigTlv.parse]
        | cons b tl' =>
          simp [List.length_cons] at h2
          omega
  · intro t l rest h1 h2
    cases N with
    | zero => omega
    | succ m =>
      simp [parse_app_config_tlv_vec, parse_app_config_tlv_loop,
        RawAppConfigTlv.parse, if_neg (by omega : ¬ l ≤ rest.length)]
  · intro rs _ hne
    rcases Nat.lt_or_ge N rs.length with hlt | hge
    · have hsplit : rs = rs.take N ++ rs.drop N := (List.take_append_drop N rs).symm
      have henc : encodeAppTlvs rs =
          encodeAppTlvs (rs.take N) ++ encodeAppTlvs (rs.drop N) := by
        conv_lhs => rw [hsplit]
        exact encodeAppTlvs_append _ _
      have hlen : (rs.take N).length = N := by
        simp [List.length_take]; omega
      have h := parse_app_config_tlv_loop_full (rs.take N) (encodeAppTlvs (rs.drop N))
      rw [hlen] at h
      have hdrop_ne : rs.drop N ≠ [] := by
        intro hc
        have := List.drop_eq_nil_iff.mp hc
        omega
      have hpos : 0 < (encodeAppTlvs (rs.drop N)).length := by
        cases hd : rs.drop N with
        | nil => exact absurd hd hdrop_ne
        | cons r rest => simp [encodeAppTlvs_cons]
      rw [henc]
      simp only [parse_app_config_tlv_vec, h]
      have hne2 : (encodeAppTlvs (rs.take N)).length ≠
          (encodeAppTlvs (rs.take N) ++ encodeAppTlvs (rs.drop N)).length := by
        rw [List.length_append]; omega
      rw [if_pos hne2]
    · have hk : N = rs.length + (N - rs.length) := by omega
      have hkpos : 1 ≤ N - rs.length := by omega
      have h := parse_app_config_tlv_loop_append rs [] (N - rs.length)
      rw [List.append_nil] at h
      have hloop : parse_app_config_tlv_loop (N - rs.length) [] = .error .BadParameters := by
        cases hm : N - rs.length with
        | zero => omega
        | succ m => simp [parse_app_config_tlv_loop, RawAppConfigTlv.parse]
      rw [hloop] at h
      rw [hk]
      simp [parse_app_config_tlv_vec, h]

/-- Witness for C6: a one-byte buffer with count 1, an oversized declared
length with count 1, and a one-record buffer parsed with counts 2 and 0 all
fail with `BadParameters`. -/
theorem parse_app_config_error_conditions_witness :
    parse_app_config_tlv_vec 1 [5] = .error .BadParameters ∧
    parse_app_config_tlv_vec 1 [0, 5, 1] = .error .BadParameters ∧
    parse_app_config_tlv_vec 2 [0, 1, 1] = .error .BadParameters ∧
    parse_app_config_tlv_vec 0 [0, 1, 1] = .error .BadParameters := by
  refine ⟨(parse_app_config_error_conditions 1).1 [5] (by decide) (by decide),
    (parse_app_config_error_conditions 1).2.1 0 5 [1] (by decide) (by decide),
    (parse_app_config_error_conditions 2).2.2 [⟨0, [1]⟩] (by decide) (by decide),
    (parse_app_config_error_conditions 0).2.2 [⟨0, [1]⟩] (by decide) (by decide)⟩

/-- `uwb_core::params::PhaseList`: session handle (u32), start slot index
(u16), end slot index (u16). -/
structure PhaseList where
  session_handle : Nat
  start_slot_index : Nat
  end_slot_index : Nat
  deriving DecidableEq, Repr

/-- Modelled from the spec: `PhaseList::parse` (uwb_core crate, not under
src/) decodes the fixed 8-byte record
`[session_handle:4][start_slot:2][end_slot:2]` little-endian and fails on any
other chunk size. -/
def PhaseList.parse (chunk : List Nat) : Option PhaseList :=
  match chunk with
  | [b0, b1, b2, b3, b4, b5, b6, b7] =>
    some ⟨b0 + 256 * (b1 + 256 * (b2 + 256 * b3)), b4 + 256 * b5, b6 + 256 * b7⟩
  | _ => none

/-- Rust `byte_array.chunks_exact(PHASE_LIST_SIZE)` with `PHASE_LIST_SIZE = 8`:
successive 8-byte chunks, any shorter remainder dropped. -/
def chunksExact8 : List Nat → List (List Nat)
  | b0 :: b1 :: b2 :: b3 :: b4 :: b5 :: b6 :: b7 :: rest =>
    [b0, b1, b2, b3, b4, b5, b6, b7] :: chunksExact8 rest
  | _ => []

/-- The `for chunk in byte_array.chunks_exact(8)` loop of
`parse_hybrid_config_phase_list_vec`: parse each chunk, pushing the results in
order and accumulating `parsed_phase_lists_len` by 8 per chunk, failing on the
first chunk that does not parse. -/
def parse_hybrid_phase_loop : List (List Nat) → Except Error (List PhaseList × Nat)
  | [] => .ok ([], 0)
  | c :: cs =>
    match PhaseList.parse c with
    | none => .error .BadParameters
    | some p =>
      match parse_hybrid_phase_loop cs with
      | .ok (ps, len) => .ok (p :: ps, 8 + len)
      | .error e => .error e

set_option linter.unusedVariables false in
/-- `parse_hybrid_config_phase_list_vec` (source lines 529-549). The
`number_of_phases` argument is used only for `Vec::with_capacity` in the
source, which does not affect the result; it is kept to mirror the
signature. -/
def parse_hybrid_config_phase_list_vec (number_of_phases : Nat) (byte_array : List Nat) :
    Except Error (List PhaseList) :=
  match parse_hybrid_phase_loop (chunksExact8 byte_array) with
  | .ok (phase_lists, parsed_phase_lists_len) =>
    if parsed_phase_lists_len ≠ byte_array.length then .error .BadParameters
    else .ok phase_lists
  | .error e => .error e

/-- Bounds under which a `PhaseList` value is representable on the wire. -/
def PhaseList.WF (p : PhaseList) : Prop :=
  p.session_handle < 2 ^ 32 ∧ p.start_slot_index < 2 ^ 16 ∧ p.end_slot_index < 2 ^ 16

instance (p : PhaseList) : Decidable p.WF := by
  unfold PhaseList.WF; infer_instance

/-- The 8-byte little-endian wire form of one phase record. -/
def PhaseList.encode (p : PhaseList) : List Nat :=
  [p.session_handle % 256, p.session_handle / 256 % 256,
   p.session_handle / 256 ^ 2 % 256, p.session_handle / 256 ^ 3 % 256,
   p.start_slot_index % 256, p.start_slot_index / 256 % 256,
   p.end_slot_index % 256, p.end_slot_index / 256 % 256]

/-- The wire encoding of a sequence of phase records. -/
def encodePhaseLists (ps : List PhaseList) : List Nat :=
  (ps.map PhaseList.encode).flatten

theorem PhaseList.parse_encode (p : PhaseList) (h : p.WF) : PhaseList.parse p.encode = some p := by
  obtain ⟨h1, h2, h3⟩ := h
  cases p with
  | mk sh ss es =>
    simp only [PhaseList.parse, PhaseList.encode]
    simp only [Option.some.injEq, PhaseList.mk.injEq]
    refine ⟨?_, ?_, ?_⟩ <;> · simp only [pow_succ, pow_zero, one_mul] at *; omega

theorem parse_hybrid_phase_loop_encode (ps : List PhaseList) (h : ∀ p ∈ ps, p.WF) :
    parse_hybrid_phase_loop (chunksExact8 (encodePhaseLists ps)) = .ok (ps, 8 * ps.length) := by
  induction ps with
  | nil => simp [encodePhaseLists, chunksExact8, parse_hybrid_phase_loop]
  | cons p ps ih =>
    have hp : p.WF := h p (List.mem_cons_self p ps)
    have hrest : ∀ q ∈ ps, q.WF := fun q hq => h q (List.mem_cons_of_mem p hq)
    have henc : encodePhaseLists (p :: ps) = p.encode ++ encodePhaseLists ps := by
      simp [encodePhaseLists]
    rw [henc]
    have hch : chunksExact8 (p.encode ++ encodePhaseLists ps) =
        p.encode :: chunksExact8 (encodePhaseLists ps) := by
      simp [PhaseList.encode, chunksExact8]
    rw [hch]
    simp only [parse_hybrid_phase_loop, PhaseList.parse_encode p hp, ih hrest]
    simp [List.length_cons]
    omega

theorem parse_hybrid_phase_loop_len (cs : List (List Nat)) (ps : List PhaseList) (len : Nat)
    (h : parse_hybrid_phase_loop cs = .ok (ps, len)) : len = 8 * cs.length := by
  induction cs generalizing ps len with
  | nil =>
    simp only [parse_hybrid_phase_loop] at h
    cases h
    simp
  | cons c cs ih =>
    simp only [parse_hybrid_phase_loop] at h
    cases hp : PhaseList.parse c with
    | none => rw [hp] at h; simp at h
    | some p =>
      rw [hp] at h
      cases hr : parse_hybrid_phase_loop cs with
      | ok q =>
        cases q with
        | mk ps' len' =>
          rw [hr] at h
          simp at h
          have := ih ps' len' hr
          simp [List.length_cons]
          omega
      | error e => rw [hr] at h; simp at h

theorem parse_hybrid_phase_loop_error (cs : List (List Nat)) (e : Error)
    (h : parse_hybrid_phase_loop cs = .error e) : e = .BadParameters := by
  induction cs generalizing e with
  | nil => simp [parse_hybrid_phase_loop] at h
  | cons c cs ih =>
    simp only [parse_hybrid_phase_loop] at h
    cases hp : PhaseList.parse c with
    | none =>
      rw [hp] at h
      simp at h
      exact h.symm
    | some p =>
      rw [hp] at h
      cases hr : parse_hybrid_phase_loop cs with
      | ok q => cases q with | mk ps len => rw [hr] at h; simp at h
      | error e' =>
        rw [hr] at h
        simp at h
        rw [← h]
        exact ih e' hr

theorem encodePhaseLists_length (ps : List PhaseList) :
    (encodePhaseLists ps).length = 8 * ps.length := by
  induction ps with
  | nil => simp [encodePhaseLists]
  | cons p ps ih =>
    simp [encodePhaseLists, PhaseList.encode] at *
    omega

/-- Counterexample to C2 as stated: with `number_of_phases = 3` and an 8-byte
buffer (`3 * 8 ≠ 8`), `parse_hybrid_config_phase_list_vec` succeeds (with one
record) instead of failing: the count argument is ignored by the code. -/
theorem parse_hybrid_ignores_count_cex :
    parse_hybrid_config_phase_list_vec 3 [0, 0, 0, 0, 0, 0, 0, 0] = .ok [⟨0, 0, 0⟩] ∧
    3 * 8 ≠ 8 := by
  exact ⟨rfl, by decide⟩

/-- C2 amended: `parse_hybrid_config_phase_list_vec` ignores
`number_of_phases`; it fails with `BadParameters` exactly when the buffer
length is not a multiple of 8, and on any buffer of `8 * k` well-formed
records it succeeds with the `k` records in buffer order, regardless of the
count argument. -/
theorem parse_hybrid_exactness_amended :
    (∀ number_of_phases : Nat, ∀ ps : List PhaseList, (∀ p ∈ ps, p.WF) →
      parse_hybrid_config_phase_list_vec number_of_phases (encodePhaseLists ps) = .ok ps) ∧
    (∀ number_of_phases : Nat, ∀ byte_array : List Nat, byte_array.length % 8 ≠ 0 →
      parse_hybrid_config_phase_list_vec number_of_phases byte_array =
        .error .BadParameters) := by
  constructor
  · intro n ps h
    have hloop := parse_hybrid_phase_loop_encode ps h
    simp [parse_hybrid_config_phase_list_vec, hloop, encodePhaseLists_length]
  · intro n byte_array h
    cases hloop : parse_hybrid_phase_loop (chunksExact8 byte_array) with
    | ok q =>
      cases q with
      | mk ps len =>
        have hlen := parse_hybrid_phase_loop_len _ _ _ hloop
        have hne : len ≠ byte_array.length := by omega
        simp [parse_hybrid_config_phase_list_vec, hloop, hne]
    | error e =>
      have he := parse_hybrid_phase_loop_error _ _ hloop
      simp [parse_hybrid_config_phase_list_vec, hloop, he]

/-- Witness for the amended C2: one well-formed record round-trips with an
unrelated count argument of 5, and a 3-byte buffer fails. -/
theorem parse_hybrid_exactness_amended_witness :
    parse_hybrid_config_phase_list_vec 5 (encodePhaseLists [⟨1, 2, 3⟩]) = .ok [⟨1, 2, 3⟩] ∧
    parse_hybrid_config_phase_list_vec 5 [1, 2, 3] = .error .BadParameters := by
  exact ⟨parse_hybrid_exactness_amended.1 5 [⟨1, 2, 3⟩] (by decide),
    parse_hybrid_exactness_amended.2 5 [1, 2, 3] (by decide)⟩

/-- `uwb_uci_packets::UpdateMulticastListAction`. -/
inductive UpdateMulticastListAction where
  | AddControlee
  | RemoveControlee
  | AddControleeWithShortSubSessionKey
  | AddControleeWithLongSubSessionKey
  deriving DecidableEq, Repr

/-- Modelled from the spec: `UpdateMulticastListAction::try_from(u8)`
(uwb_uci_packets crate, not under src/): the four UCI action codes 0-3; any
other code is rejected (spec: unknown action code maps to `BadParameters`). -/
def UpdateMulticastListAction.try_from (a : Nat) : Option UpdateMulticastListAction :=
  if a = 0 then some .AddControlee
  else if a = 1 then some .RemoveControlee
  else if a = 2 then some .AddControleeWithShortSubSessionKey
  else if a = 3 then some .AddControleeWithLongSubSessionKey
  else none

/-- `uwb_uci_packets::Controlee`: a 2-byte short address and a sub-session
id. -/
structure Controlee where
  short_address : Nat × Nat
  subsession_id : Nat
  deriving DecidableEq, Repr

/-- `uwb_uci_packets::Controlee_V2_0_16_Byte_Version`: entry with a 16-byte
sub-session key. -/
structure Controlee_V2_0_16_Byte_Version where
  short_address : Nat × Nat
  subsession_id : Nat
  subsession_key : List Nat
  deriving DecidableEq, Repr

/-- `uwb_uci_packets::Controlee_V2_0_32_Byte_Version`: entry with a 32-byte
sub-session key. -/
structure Controlee_V2_0_32_Byte_Version where
  short_address : Nat × Nat
  subsession_id : Nat
  subsession_key : List Nat
  deriving DecidableEq, Repr

/-- `uwb_uci_packets::Controlees`: the three controlee-list variants. -/
inductive Controlees where
  | NoSessionKey (l : List Controlee)
  | ShortSessionKey (l : List Controlee_V2_0_16_Byte_Version)
  | LongSessionKey (l : List Controlee_V2_0_32_Byte_Version)
  deriving DecidableEq, Repr

/-- The Rust cast `s as u32` applied to an `i32` (`jint`) value. -/
def i32_as_u32 (s : Int) : Nat := (s % (2 ^ 32 : Int)).toNat

/-- The Rust cast `a as u8` applied to an `i8` (`jbyte`) value. -/
def i8_as_u8 (a : Int) : Nat := (a % (256 : Int)).toNat

/-- The Rust cast `n as usize` applied to an `i8` (`jbyte`) value on a 64-bit
target (sign extension). -/
def i8_as_usize (n : Int) : Nat := (n % (2 ^ 64 : Int)).toNat

/-- `addresses_bytes.chunks_exact(2)` mapped through
`|chunk| [chunk[0], chunk[1]]`: successive 2-byte address pairs, any trailing
odd byte dropped. -/
def chunksExact2 : List Nat → List (Nat × Nat)
  | a :: b :: rest => (a, b) :: chunksExact2 rest
  | _ => []

/-- Fuel-indexed worker for `chunksSucc`; the fuel is an upper bound on the
list length, so the recursion is structural and the function computes by
`rfl`. -/
def chunksGo (k : Nat) : Nat → List Nat → List (List Nat)
  | _, [] => []
  | 0, _ :: _ => []
  | fuel + 1, a :: l => (a :: l).take (k + 1) :: chunksGo k fuel (l.drop k)

/-- Rust `slice::chunks(k + 1)`: successive chunks of `k + 1` bytes, the final
chunk possibly shorter. The source uses `chunks(16)` (`chunksSucc 15`) and
`chunks(32)` (`chunksSucc 31`). -/
def chunksSucc (k : Nat) (l : List Nat) : List (List Nat) :=
  chunksGo k l.length l

theorem chunksGo_nil (k f : Nat) : chunksGo k f [] = [] := by
  cases f <;> rfl

theorem chunksGo_congr (k : Nat) :
    ∀ f₁ f₂ : Nat, ∀ l : List Nat, l.length ≤ f₁ → l.length ≤ f₂ →
      chunksGo k f₁ l = chunksGo k f₂ l
  | _, _, [], _, _ => by rw [chunksGo_nil, chunksGo_nil]
  | 0, _, a :: l, h₁, _ => by simp at h₁
  | _ + 1, 0, a :: l, _, h₂ => by simp at h₂
  | f + 1, g + 1, a :: l, h₁, h₂ => by
    simp only [chunksGo]
    have hd : (l.drop k).length ≤ f := by simp [List.length_drop]; simp at h₁; omega
    have hd2 : (l.drop k).length ≤ g := by simp [List.length_drop]; simp at h₂; omega
    rw [chunksGo_congr k f g (l.drop k) hd hd2]

theorem chunksSucc_cons (k : Nat) (a : Nat) (l : List Nat) :
    chunksSucc k (a :: l) = (a :: l).take (k + 1) :: chunksSucc k (l.drop k) := by
  simp only [chunksSucc, List.length_cons, chunksGo]
  rw [chunksGo_congr k l.length (l.drop k).length (l.drop k)
    (by simp [List.length_drop]) (le_refl _)]

/-- Per-element check and collection of the short-key branch: the closure
body `key.try_into().map_err(|_| Error::BadParameters)` (a 16-byte array
coercion) under `collect::<Result<Vec<_>>>`, which short-circuits on the
first failing chunk. -/
def collectShortKeyControlees :
    List (((Nat × Nat) × Int) × List Nat) → Except Error (List Controlee_V2_0_16_Byte_Version)
  | [] => .ok []
  | (p, key) :: rest =>
    if key.length = 16 then
      match collectShortKeyControlees rest with
      | .ok cs => .ok (⟨p.1, i32_as_u32 p.2, key⟩ :: cs)
      | .error e => .error e
    else .error .BadParameters

/-- The 32-byte analogue of `collectShortKeyControlees` for the long-key
branch. -/
def collectLongKeyControlees :
    List (((Nat × Nat) × Int) × List Nat) → Except Error (List Controlee_V2_0_32_Byte_Version)
  | [] => .ok []
  | (p, key) :: rest =>
    if key.length = 32 then
      match collectLongKeyControlees rest with
      | .ok cs => .ok (⟨p.1, i32_as_u32 p.2, key⟩ :: cs)
      | .error e => .error e
    else .error .BadParameters

/-- The controlee-list resolution logic of
`native_controller_multicast_list_update` (source lines 780-862), after JNI
marshalling: `addresses_bytes` is the converted address byte array,
`sub_session_id_list` the converted `jint` array, and `sub_session_keys =
none` models a null key array. The `ok` value is the `Controlees` list passed
to `session_update_controller_multicast_list`. -/
def native_controller_multicast_list_update (action : Int) (no_of_controlee : Int)
    (addresses_bytes : List Nat) (sub_session_id_list : List Int)
    (sub_session_keys : Option (List Nat)) : Except Error Controlees :=
  let address_list : List (Nat × Nat) := chunksExact2 addresses_bytes
  if address_list.length ≠ sub_session_id_list.length ∨
      address_list.length ≠ i8_as_usize no_of_controlee then
    .error .BadParameters
  else
    match UpdateMulticastListAction.try_from (i8_as_u8 action) with
    | none => .error .BadParameters
    | some .AddControlee =>
      .ok (.NoSessionKey ((address_list.zip sub_session_id_list).map
        (fun p => ⟨p.1, i32_as_u32 p.2⟩)))
    | some .RemoveControlee =>
      .ok (.NoSessionKey ((address_list.zip sub_session_id_list).map
        (fun p => ⟨p.1, i32_as_u32 p.2⟩)))
    | some .AddControleeWithShortSubSessionKey =>
      match sub_session_keys with
      | none =>
        .ok (.NoSessionKey ((address_list.zip sub_session_id_list).map
          (fun p => ⟨p.1, i32_as_u32 p.2⟩)))
      | some keys =>
        match collectShortKeyControlees
            ((address_list.zip sub_session_id_list).zip (chunksSucc 15 keys)) with
        | .ok cs => .ok (.ShortSessionKey cs)
        | .error e => .error e
    | some .AddControleeWithLongSubSessionKey =>
      match sub_session_keys with
      | none =>
        .ok (.NoSessionKey ((address_list.zip sub_session_id_list).map
          (fun p => ⟨p.1, i32_as_u32 p.2⟩)))
      | some keys =>
        match collectLongKeyControlees
            ((address_list.zip sub_session_id_list).zip (chunksSucc 31 keys)) with
        | .ok cs => .ok (.LongSessionKey cs)
        | .error e => .error e

/-- Byte-level flattening of a list of 2-byte address pairs (the encoding
that `chunks_exact(2)` undoes). -/
def flatten2 (pairs : List (Nat × Nat)) : List Nat :=
  (pairs.map (fun p => [p.1, p.2])).flatten

/-- The controlee entries built by the no-key branches: addresses zipped with
sub-session ids in input order. -/
def mkNoKeyEntries (pairs : List (Nat × Nat)) (ids : List Int) : List Controlee :=
  (pairs.zip ids).map (fun p => ⟨p.1, i32_as_u32 p.2⟩)

/-- The short-key entries: addresses and ids zipped with 16-byte key chunks in
input order. -/
def mkShortEntries (pairs : List (Nat × Nat)) (ids : List Int)
    (keyChunks : List (List Nat)) : List Controlee_V2_0_16_Byte_Version :=
  ((pairs.zip ids).zip keyChunks).map (fun q => ⟨q.1.1, i32_as_u32 q.1.2, q.2⟩)

/-- The long-key entries: addresses and ids zipped with 32-byte key chunks in
input order. -/
def mkLongEntries (pairs : List (Nat × Nat)) (ids : List Int)
    (keyChunks : List (List Nat)) : List Controlee_V2_0_32_Byte_Version :=
  ((pairs.zip ids).zip keyChunks).map (fun q => ⟨q.1.1, i32_as_u32 q.1.2, q.2⟩)

theorem chunksExact2_flatten2 (pairs : List (Nat × Nat)) :
    chunksExact2 (flatten2 pairs) = pairs := by
  induction pairs with
  | nil => rfl
  | cons p ps ih =>
    have h : flatten2 (p :: ps) = p.1 :: p.2 :: flatten2 ps := by simp [flatten2]
    rw [h]
    simp only [chunksExact2, ih]

theorem collectShortKeyControlees_ok (l : List (((Nat × Nat) × Int) × List Nat))
    (h : ∀ q ∈ l, q.2.length = 16) :
    collectShortKeyControlees l =
      .ok (l.map (fun q => ⟨q.1.1, i32_as_u32 q.1.2, q.2⟩)) := by
  induction l with
  | nil => rfl
  | cons q rest ih =>
    obtain ⟨p, key⟩ := q
    have hk : key.length = 16 := h (p, key) (List.mem_cons_self _ _)
    have hrest := ih (fun q hq => h q (List.mem_cons_of_mem _ hq))
    simp [collectShortKeyControlees, hk, hrest]

theorem collectLongKeyControlees_ok (l : List (((Nat × Nat) × Int) × List Nat))
    (h : ∀ q ∈ l, q.2.length = 32) :
    collectLongKeyControlees l =
      .ok (l.map (fun q => ⟨q.1.1, i32_as_u32 q.1.2, q.2⟩)) := by
  induction l with
  | nil => rfl
  | cons q rest ih =>
    obtain ⟨p, key⟩ := q
    have hk : key.length = 32 := h (p, key) (List.mem_cons_self _ _)
    have hrest := ih (fun q hq => h q (List.mem_cons_of_mem _ hq))
    simp [collectLongKeyControlees, hk, hrest]

theorem collectShortKeyControlees_error (l : List (((Nat × Nat) × Int) × List Nat))
    (h : ∃ q ∈ l, q.2.length ≠ 16) :
    collectShortKeyControlees l = .error .BadParameters := by
  induction l with
  | nil => obtain ⟨q, hq, _⟩ := h; simp at hq
  | cons q0 rest ih =>
    obtain ⟨p, key⟩ := q0
    by_cases hk : key.length = 16
    · obtain ⟨q, hq, hlen⟩ := h
      rcases List.mem_cons.mp hq with rfl | hmem
      · exact absurd hk hlen
      · simp [collectShortKeyControlees, hk, ih ⟨q, hmem, hlen⟩]
    · simp [collectShortKeyControlees, hk]

theorem collectLongKeyControlees_error (l : List (((Nat × Nat) × Int) × List Nat))
    (h : ∃ q ∈ l, q.2.length ≠ 32) :
    collectLongKeyControlees l = .error .BadParameters := by
  induction l with
  | nil => obtain ⟨q, hq, _⟩ := h; simp at hq
  | cons q0 rest ih =>
    obtain ⟨p, key⟩ := q0
    by_cases hk : key.length = 32
    · obtain ⟨q, hq, hlen⟩ := h
      rcases List.mem_cons.mp hq with rfl | hmem
      · exact absurd hk hlen
      · simp [collectLongKeyControlees, hk, ih ⟨q, hmem, hlen⟩]
    · simp [collectLongKeyControlees, hk]

theorem chunksSucc_full (k : Nat) :
    ∀ m : Nat, ∀ keys : List Nat, keys.length = (k + 1) * m →
      (chunksSucc k keys).length = m ∧ ∀ c ∈ chunksSucc k keys, c.length = k + 1 := by
  intro m
  induction m with
  | zero =>
    intro keys hk
    have : keys = [] := List.eq_nil_of_length_eq_zero (by simpa using hk)
    subst this
    exact ⟨rfl, by simp [chunksSucc, chunksGo]⟩
  | succ m ih =>
    intro keys hk
    have hexp : (k + 1) * (m + 1) = (k + 1) * m + (k + 1) := by ring
    have hpos : 0 < keys.length := by omega
    cases keys with
    | nil => simp at hpos
    | cons a l =>
      rw [chunksSucc_cons]
      have hlen : l.length = (k + 1) * m + k := by
        simp [List.length_cons] at hk
        omega
      have hdlen : (l.drop k).length = (k + 1) * m := by
        simp [List.length_drop]
        omega
      obtain ⟨ihlen, ihmem⟩ := ih (l.drop k) hdlen
      have htk : ((a :: l).take (k + 1)).length = k + 1 := by
        simp [List.length_take, List.length_cons]
        omega
      refine ⟨by simp [ihlen], ?_⟩
      intro c hc
      rcases List.mem_cons.mp hc with rfl | hmem
      · exact htk
      · exact ihmem c hmem

theorem chunksSucc_exists_short (k : Nat) :
    ∀ keys : List Nat, keys.length % (k + 1) ≠ 0 →
      ∃ c ∈ chunksSucc k keys, c.length ≠ k + 1
  | [], h => by simp at h
  | a :: l, h => by
    rw [chunksSucc_cons]
    by_cases hge : k ≤ l.length
    · have hx : (l.drop k).length % (k + 1) ≠ 0 := by
        intro hc
        simp only [List.length_drop] at hc
        apply h
        have hx2 : l.length - k + (k + 1) = (a :: l).length := by
          simp [List.length_cons]
          omega
        calc (a :: l).length % (k + 1)
            = (l.length - k + (k + 1)) % (k + 1) := by rw [hx2]
          _ = (l.length - k) % (k + 1) := Nat.add_mod_right _ _
          _ = 0 := hc
      obtain ⟨c, hc, hlen⟩ := chunksSucc_exists_short k (l.drop k) hx
      exact ⟨c, List.mem_cons_of_mem _ hc, hlen⟩
    · refine ⟨(a :: l).take (k + 1), List.mem_cons_self _ _, ?_⟩
      have htk : ((a :: l).take (k + 1)).length = l.length + 1 := by
        simp [List.length_take, List.length_cons]
        omega
      rw [htk]
      omega
  termination_by keys => keys.length
  decreasing_by simp [List.length_drop]; omega

theorem zip_exists_bad {α : Type} (w : Nat) :
    ∀ cs : List (List Nat), ∀ l : List α, cs.length ≤ l.length →
      (∃ c ∈ cs, c.length ≠ w) → ∃ q ∈ l.zip cs, q.2.length ≠ w := by
  intro cs
  induction cs with
  | nil =>
    intro l _ h
    obtain ⟨c, hc, _⟩ := h
    simp at hc
  | cons c cs ih =>
    intro l hle h
    cases l with
    | nil => simp at hle
    | cons a l =>
      obtain ⟨c0, hc0, hlen⟩ := h
      rcases List.mem_cons.mp hc0 with rfl | hmem
      · exact ⟨(a, c0), List.mem_cons_self _ _, hlen⟩
      · have hle' : cs.length ≤ l.length := by
          simp [List.length_cons] at hle
          omega
        obtain ⟨q, hq, hql⟩ := ih l hle' ⟨c0, hmem, hlen⟩
        exact ⟨q, List.mem_cons_of_mem _ hq, hql⟩

/-- Counterexample to C3 as stated: under the short-key action with 2
addresses, 2 sub-session ids, and 16 bytes of key material (one chunk), the
code produces a `ShortSessionKey` list with a single entry — not "exactly as
many entries as addresses" — because `zip` truncates to the shorter side. -/
theorem multicast_shortkey_truncates_cex :
    native_controller_multicast_list_update 2 2 [1, 2, 3, 4] [10, 20]
        (some (List.replicate 16 0)) =
      .ok (.ShortSessionKey [⟨(1, 2), 10, List.replicate 16 0⟩]) ∧
    (chunksExact2 [1, 2, 3, 4]).length = 2 := ⟨rfl, rfl⟩

/-- Counterexample to C4 as stated: key material of length 17 (not a multiple
of 16) under the short-key action with a single address succeeds — the
incomplete trailing chunk lies beyond the zipped range and is silently
ignored. -/
theorem multicast_keylen_not_multiple_ok_cex :
    native_controller_multicast_list_update 2 1 [1, 2] [5]
        (some (List.replicate 17 0)) =
      .ok (.ShortSessionKey [⟨(1, 2), 5, List.replicate 16 0⟩]) ∧
    (List.replicate (17 : Nat) (0 : Nat)).length % 16 ≠ 0 := ⟨rfl, by decide⟩

/-- Counterexample to C5 as stated: under the long-key action, 2 addresses and
2 sub-session ids with only one 32-byte key chunk (key chunk count differs
from the entry count) does not fail: the call succeeds with a truncated
one-entry list. -/
theorem multicast_key_chunk_mismatch_ok_cex :
    native_controller_multicast_list_update 3 2 [1, 2, 3, 4] [10, 20]
        (some (List.replicate 32 0)) =
      .ok (.LongSessionKey [⟨(1, 2), 10, List.replicate 32 0⟩]) ∧
    (chunksSucc 31 (List.replicate 32 0)).length = 1 ∧
    (chunksExact2 [1, 2, 3, 4]).length = 2 := ⟨rfl, rfl, rfl⟩

/-- C3 amended: with the cardinality check passed, plain add/remove actions
and keyed actions with a null key array produce the `NoSessionKey` variant
from addresses and ids in input order; a keyed action with key material of
length `16 * m` (resp. `32 * m`) produces the `ShortSessionKey` (resp.
`LongSessionKey`) variant by zipping entries with key chunks in input order,
yielding `min (number of addresses) m` entries (the zip truncates to the
shorter side; excess key chunks are ignored). -/
theorem multicast_variant_selection_amended :
    (∀ action no : Int, ∀ pairs : List (Nat × Nat), ∀ ids : List Int,
      ∀ sub_session_keys : Option (List Nat),
      (i8_as_u8 action = 0 ∨ i8_as_u8 action = 1) →
      ids.length = pairs.length → i8_as_usize no = pairs.length →
      native_controller_multicast_list_update action no (flatten2 pairs) ids
          sub_session_keys =
        .ok (.NoSessionKey (mkNoKeyEntries pairs ids))) ∧
    (∀ action no : Int, ∀ pairs : List (Nat × Nat), ∀ ids : List Int,
      (i8_as_u8 action = 2 ∨ i8_as_u8 action = 3) →
      ids.length = pairs.length → i8_as_usize no = pairs.length →
      native_controller_multicast_list_update action no (flatten2 pairs) ids none =
        .ok (.NoSessionKey (mkNoKeyEntries pairs ids))) ∧
    (∀ action no : Int, ∀ pairs : List (Nat × Nat), ∀ ids : List Int,
      ∀ keys : List Nat, ∀ m : Nat,
      i8_as_u8 action = 2 →
      ids.length = pairs.length → i8_as_usize no = pairs.length →
      keys.length = 16 * m →
      native_controller_multicast_list_update action no (flatten2 pairs) ids (some keys) =
        .ok (.ShortSessionKey (mkShortEntries pairs ids (chunksSucc 15 keys))) ∧
      (mkShortEntries pairs ids (chunksSucc 15 keys)).length = min pairs.length m) ∧
    (∀ action no : Int, ∀ pairs : List (Nat × Nat), ∀ ids : List Int,
      ∀ keys : List Nat, ∀ m : Nat,
      i8_as_u8 action = 3 →
      ids.length = pairs.length → i8_as_usize no = pairs.length →
      keys.length = 32 * m →
      native_controller_multicast_list_update action no (flatten2 pairs) ids (some keys) =
        .ok (.LongSessionKey (mkLongEntries pairs ids (chunksSucc 31 keys))) ∧
      (mkLongEntries pairs ids (chunksSucc 31 keys)).length = min pairs.length m) := by
  refine ⟨?_, ?_, ?_, ?_⟩
  · intro action no pairs ids keys? hact hids hno
    simp only [native_controller_multicast_list_update, chunksExact2_flatten2]
    rw [if_neg (by simp [hids, hno])]
    rcases hact with h | h <;>
      simp [h, UpdateMulticastListAction.try_from, mkNoKeyEntries]
  · intro action no pairs ids hact hids hno
    simp only [native_controller_multicast_list_update, chunksExact2_flatten2]
    rw [if_neg (by simp [hids, hno])]
    rcases hact with h | h <;>
      simp [h, UpdateMulticastListAction.try_from, mkNoKeyEntries]
  · intro action no pairs ids keys m hact hids hno hkeys
    obtain ⟨hclen, hcmem⟩ := chunksSucc_full 15 m keys (by simpa using hkeys)
    have hall : ∀ q ∈ (pairs.zip ids).zip (chunksSucc 15 keys), q.2.length = 16 :=
      fun q hq => hcmem q.2 (List.of_mem_zip hq).2
    constructor
    · simp only [native_controller_multicast_list_update, chunksExact2_flatten2]
      rw [if_neg (by simp [hids, hno])]
      simp [hact, UpdateMulticastListAction.try_from,
        collectShortKeyControlees_ok _ hall, mkShortEntries]
    · simp [mkShortEntries, List.length_zip, hids, hclen]
  · intro action no pairs ids keys m hact hids hno hkeys
    obtain ⟨hclen, hcmem⟩ := chunksSucc_full 31 m keys (by simpa using hkeys)
    have hall : ∀ q ∈ (pairs.zip ids).zip (chunksSucc 31 keys), q.2.length = 32 :=
      fun q hq => hcmem q.2 (List.of_mem_zip hq).2
    constructor
    · simp only [native_controller_multicast_list_update, chunksExact2_flatten2]
      rw [if_neg (by simp [hids, hno])]
      simp [hact, UpdateMulticastListAction.try_from,
        collectLongKeyControlees_ok _ hall, mkLongEntries]
    · simp [mkLongEntries, List.length_zip, hids, hclen]

/-- Witness for the amended C3: the spec's concrete no-key scenario, the
null-key fallback under a keyed action, and an exact short-key scenario with
`16 * 2` key bytes for 2 entries. -/
theorem multicast_variant_selection_amended_witness :
    native_controller_multicast_list_update 0 2 [1, 2, 3, 4] [10, 20] none =
      .ok (.NoSessionKey [⟨(1, 2), 10⟩, ⟨(3, 4), 20⟩]) ∧
    native_controller_multicast_list_update 2 2 [1, 2, 3, 4] [10, 20] none =
      .ok (.NoSessionKey [⟨(1, 2), 10⟩, ⟨(3, 4), 20⟩]) ∧
    native_controller_multicast_list_update 2 2 [1, 2, 3, 4] [10, 20]
        (some (List.replicate 32 9)) =
      .ok (.ShortSessionKey [⟨(1, 2), 10, List.replicate 16 9⟩,
        ⟨(3, 4), 20, List.replicate 16 9⟩]) := by
  have h1 := multicast_variant_selection_amended.1 0 2 [(1, 2), (3, 4)] [10, 20] none
    (Or.inl (by decide)) (by decide) (by decide)
  have h2 := multicast_variant_selection_amended.2.1 2 2 [(1, 2), (3, 4)] [10, 20]
    (Or.inl (by decide)) (by decide) (by decide)
  have h3 := (multicast_variant_selection_amended.2.2.1 2 2 [(1, 2), (3, 4)] [10, 20]
    (List.replicate 32 9) 2 (by decide) (by decide) (by decide) (by decide)).1
  refine ⟨?_, ?_, ?_⟩
  · exact h1
  · exact h2
  · exact h3

/-- C4 amended: under a keyed action with a non-null key array, the call
fails with `BadParameters` whenever the key length is not an exact multiple of
16 (resp. 32) AND the number of key chunks does not exceed the number of
address entries (so the incomplete trailing chunk falls inside the zipped
range); an incomplete chunk beyond the zipped range is silently ignored (see
the counterexample). -/
theorem multicast_keylen_error_amended :
    (∀ action no : Int, ∀ pairs : List (Nat × Nat), ∀ ids : List Int, ∀ keys : List Nat,
      i8_as_u8 action = 2 →
      ids.length = pairs.length → i8_as_usize no = pairs.length →
      keys.length % 16 ≠ 0 → (chunksSucc 15 keys).length ≤ pairs.length →
      native_controller_multicast_list_update action no (flatten2 pairs) ids (some keys) =
        .error .BadParameters) ∧
    (∀ action no : Int, ∀ pairs : List (Nat × Nat), ∀ ids : List Int, ∀ keys : List Nat,
      i8_as_u8 action = 3 →
      ids.length = pairs.length → i8_as_usize no = pairs.length →
      keys.length % 32 ≠ 0 → (chunksSucc 31 keys).length ≤ pairs.length →
      native_controller_multicast_list_update action no (flatten2 pairs) ids (some keys) =
        .error .BadParameters) := by
  constructor
  · intro action no pairs ids keys hact hids hno hmod hle
    have hbadchunk := chunksSucc_exists_short 15 keys (by simpa using hmod)
    have hzle : (chunksSucc 15 keys).length ≤ (pairs.zip ids).length := by
      simp [List.length_zip, hids]
      omega
    have hbad := zip_exists_bad 16 (chunksSucc 15 keys) (pairs.zip ids) hzle hbadchunk
    simp only [native_controller_multicast_list_update, chunksExact2_flatten2]
    rw [if_neg (by simp [hids, hno])]
    simp [hact, UpdateMulticastListAction.try_from,
      collectShortKeyControlees_error _ hbad]
  · intro action no pairs ids keys hact hids hno hmod hle
    have hbadchunk := chunksSucc_exists_short 31 keys (by simpa using hmod)
    have hzle : (chunksSucc 31 keys).length ≤ (pairs.zip ids).length := by
      simp [List.length_zip, hids]
      omega
    have hbad := zip_exists_bad 32 (chunksSucc 31 keys) (pairs.zip ids) hzle hbadchunk
    simp only [native_controller_multicast_list_update, chunksExact2_flatten2]
    rw [if_neg (by simp [hids, hno])]
    simp [hact, UpdateMulticastListAction.try_from,
      collectLongKeyControlees_error _ hbad]

/-- Witness for the amended C4: 17 key bytes for 2 short-key entries (2
chunks, the second incomplete) fail, and 33 key bytes for 2 long-key entries
fail. -/
theorem multicast_keylen_error_amended_witness :
    native_controller_multicast_list_update 2 2 [1, 2, 3, 4] [5, 6]
        (some (List.replicate 17 0)) = .error .BadParameters ∧
    native_controller_multicast_list_update 3 2 [1, 2, 3, 4] [5, 6]
        (some (List.replicate 33 0)) = .error .BadParameters := by
  exact ⟨multicast_keylen_error_amended.1 2 2 [(1, 2), (3, 4)] [5, 6]
      (List.replicate 17 0) (by decide) (by decide) (by decide) (by decide) (by decide),
    multicast_keylen_error_amended.2 3 2 [(1, 2), (3, 4)] [5, 6]
      (List.replicate 33 0) (by decide) (by decide) (by decide) (by decide) (by decide)⟩

/-- C5 amended: a cardinality mismatch among the number of 2-byte address
chunks, the sub-session-id count, and the declared `no_of_controlee` always
yields `BadParameters` (for every action byte and key array, before any key
processing), and the mismatch is never resolved by truncating addresses or
ids; a mismatch between the number of key chunks and the number of entries,
however, is NOT an error: the zip truncates (see the counterexample). -/
theorem multicast_cardinality_error_amended (action no : Int)
    (addresses_bytes : List Nat) (sub_session_id_list : List Int)
    (sub_session_keys : Option (List Nat))
    (h : (chunksExact2 addresses_bytes).length ≠ sub_session_id_list.length ∨
      (chunksExact2 addresses_bytes).length ≠ i8_as_usize no) :
    native_controller_multicast_list_update action no addresses_bytes sub_session_id_list
      sub_session_keys = .error .BadParameters := by
  simp only [native_controller_multicast_list_update]
  rw [if_pos h]

/-- Witness for the amended C5: 2 address chunks with only 1 sub-session id
fail, and 2 address chunks with a declared count of 1 fail. -/
theorem multicast_cardinality_error_amended_witness :
    native_controller_multicast_list_update 0 2 [1, 2, 3, 4] [5] none =
      .error .BadParameters ∧
    native_controller_multicast_list_update 0 1 [1, 2, 3, 4] [5, 6] none =
      .error .BadParameters := by
  exact ⟨multicast_cardinality_error_amended 0 2 [1, 2, 3, 4] [5] none
      (Or.inl (by decide)),
    multicast_cardinality_error_amended 0 1 [1, 2, 3, 4] [5, 6] none
      (Or.inr (by decide))⟩

theorem chunksExact2_odd : ∀ l : List Nat, l.length % 2 = 1 →
    chunksExact2 l = chunksExact2 (l.take (l.length - 1))
  | [], h => by simp at h
  | [_], _ => rfl
  | a :: b :: rest, h => by
    have h' : rest.length % 2 = 1 := by
      simp [List.length_cons] at h
      omega
    have ih := chunksExact2_odd rest h'
    obtain ⟨m, hm⟩ : ∃ m, rest.length = m + 1 := ⟨rest.length - 1, by omega⟩
    have hlen : (a :: b :: rest).length - 1 = m + 2 := by
      simp [List.length_cons, hm]
    rw [hlen]
    have htake : (a :: b :: rest).take (m + 2) = a :: b :: rest.take m := by
      simp [List.take_succ_cons]
    rw [htake]
    simp only [chunksExact2]
    rw [ih, hm]
    simp

/-- C10: the address array is split with `chunks_exact(2)`, so an odd-length
address array behaves exactly as its even-length prefix: the trailing byte is
silently discarded before the cardinality check, for every action, declared
count, id list and key array. -/
theorem multicast_odd_address_truncation (addresses_bytes : List Nat)
    (hodd : addresses_bytes.length % 2 = 1) (action no : Int)
    (sub_session_id_list : List Int) (sub_session_keys : Option (List Nat)) :
    native_controller_multicast_list_update action no addresses_bytes
        sub_session_id_list sub_session_keys =
      native_controller_multicast_list_update action no
        (addresses_bytes.take (addresses_bytes.length - 1)) sub_session_id_list
        sub_session_keys := by
  simp only [native_controller_multicast_list_update]
  rw [← chunksExact2_odd addresses_bytes hodd]

/-- Witness for C10: a 3-byte address array with a declared count of 1 and one
sub-session id proceeds exactly as on its 2-byte prefix (and in particular
succeeds instead of being rejected). -/
theorem multicast_odd_address_truncation_witness :
    native_controller_multicast_list_update 0 1 [1, 2, 3] [7] none =
      native_controller_multicast_list_update 0 1 [1, 2] [7] none ∧
    native_controller_multicast_list_update 0 1 [1, 2, 3] [7] none =
      .ok (.NoSessionKey [⟨(1, 2), 7⟩]) := by
  have h := multicast_odd_address_truncation [1, 2, 3] (by decide) 0 1 [7] none
  exact ⟨h, rfl⟩

/-- Modelled from the spec: the Dispatcher singleton state (crate module
`dispatcher`, not under src/). Per the spec's state machine, at most one
Dispatcher is Live per process; the state is the identity token (pointer) of
the currently Live instance, or `none` when no instance is Live
(Uninitialized or Destroyed). -/
def DispatcherState : Type := Option Nat

/-- Modelled from the spec: `Dispatcher::get_dispatcher_ptr` (not under src/)
returns the live instance's token and fails with a non-`BadParameters` state
error outside the Live state. -/
def Dispatcher.get_dispatcher_ptr (st : Option Nat) : Except Error Nat :=
  match st with
  | some p => .ok p
  | none => .error .Unknown

/-- `native_dispatcher_destroy` (source lines 1393-1404): reads the caller's
`mDispatcherPointer` field and, if it equals the live Dispatcher's pointer,
destroys the Dispatcher (`Dispatcher::destroy_dispatcher`, modelled from the
spec as clearing the singleton slot); otherwise returns `BadParameters`. The
result is paired with the post-call singleton state. -/
def native_dispatcher_destroy (st : Option Nat) (mDispatcherPointer : Nat) :
    Except Error Unit × Option Nat :=
  match Dispatcher.get_dispatcher_ptr st with
  | .error e => (.error e, st)
  | .ok p =>
    if p = mDispatcherPointer then (.ok (), none)
    else (.error .BadParameters, st)

/-- C7: with a Dispatcher live under token `p`, destroying with handle `p`
succeeds and clears the live instance, while destroying with any other handle
returns `BadParameters` and leaves the live Dispatcher untouched. -/
theorem native_dispatcher_destroy_identity (p handle : Nat) :
    (handle = p →
      native_dispatcher_destroy (some p) handle = (.ok (), none)) ∧
    (handle ≠ p →
      native_dispatcher_destroy (some p) handle = (.error .BadParameters, some p)) := by
  constructor
  · intro h
    simp [native_dispatcher_destroy, Dispatcher.get_dispatcher_ptr, h]
  · intro h
    have h2 : ¬ p = handle := fun hc => h hc.symm
    simp [native_dispatcher_destroy, Dispatcher.get_dispatcher_ptr, h2]

/-- Witness for C7: destroying the instance with token 7 using handle 7
succeeds and clears it; using handle 8 fails and leaves it live. -/
theorem native_dispatcher_destroy_identity_witness :
    native_dispatcher_destroy (some 7) 7 = (.ok (), none) ∧
    native_dispatcher_destroy (some 7) 8 = (.error .BadParameters, some 7) :=
  ⟨(native_dispatcher_destroy_identity 7 7).1 rfl,
    (native_dispatcher_destroy_identity 7 8).2 (by decide)⟩

/-- Rust `u16 -> i16` conversion `s.try_into()` as used in
`nativeQueryDataSize`: succeeds exactly when the value fits in `i16`. -/
def jshort_try_from (s : Nat) : Option Int :=
  if s ≤ 32767 then some (Int.ofNat s) else none

/-- The return-value computation of `nativeQueryDataSize` (source lines
1192-1206): on `Some(s)` from the helper the `u16` is converted with
`s.try_into().unwrap()` — `none` here models the `unwrap` panic — and on
`None` the function returns 0. -/
def nativeQueryDataSize_ret (r : Except Error Nat) : Option Int :=
  match r with
  | .ok s => jshort_try_from s
  | .error _ => some 0

/-- C8: for a successful `session_query_max_data_size` result `s : u16`, the
`try_into().unwrap()` conversion to `jshort` succeeds iff `s ≤ 32767`; every
result above `i16::MAX` makes the unwrap panic, so the conversion is not
total over the `u16` range. -/
theorem query_data_size_conversion_bound (s : Nat) (hs : s < 65536) :
    ((nativeQueryDataSize_ret (.ok s)).isSome ↔ s ≤ 32767) ∧
    (s ≤ 32767 → nativeQueryDataSize_ret (.ok s) = some (Int.ofNat s)) ∧
    (32767 < s → nativeQueryDataSize_ret (.ok s) = none) := by
  refine ⟨?_, ?_, ?_⟩
  · by_cases h : s ≤ 32767 <;>
      simp [nativeQueryDataSize_ret, jshort_try_from, h]
  · intro h
    simp [nativeQueryDataSize_ret, jshort_try_from, h]
  · intro h
    simp [nativeQueryDataSize_ret, jshort_try_from]
    omega

/-- Witness for C8: the u16 value 32767 converts; 32768 makes the unwrap
panic. -/
theorem query_data_size_conversion_bound_witness :
    nativeQueryDataSize_ret (.ok 32767) = some (Int.ofNat 32767) ∧
    nativeQueryDataSize_ret (.ok 32768) = none :=
  ⟨(query_data_size_conversion_bound 32767 (by decide)).2.1 (by decide),
    (query_data_size_conversion_bound 32768 (by decide)).2.2 (by decide)⟩

/-- `native_set_country_code` (source lines 882-898), with the external
validator `CountryCode::new` (uwb_core, not under src/) abstracted as a
function argument returning the validated code or rejecting it. The `ok`
value is the validated country code passed to
`uci_manager.android_set_country_code`; every error path returns before that
call. -/
def native_set_country_code (validate : List Nat → Option (List Nat))
    (country_code : List Nat) : Except Error (List Nat) :=
  match country_code with
  | [a, b] =>
    match validate [a, b] with
    | some cc => .ok cc
    | none => .error .BadParameters
  | _ => .error .BadParameters

/-- C9: for every byte array whose length is not 2, `native_set_country_code`
returns `BadParameters` without invoking the manager; the manager is invoked
(`ok` result) only with a 2-byte code accepted by `CountryCode::new`. -/
theorem native_set_country_code_guard (validate : List Nat → Option (List Nat))
    (country_code : List Nat) :
    (country_code.length ≠ 2 →
      native_set_country_code validate country_code = .error .BadParameters) ∧
    (∀ cc, native_set_country_code validate country_code = .ok cc →
      ∃ a b, country_code = [a, b] ∧ validate [a, b] = some cc) := by
  constructor
  · intro h
    match country_code with
    | [] => rfl
    | [_] => rfl
    | [_, _] => simp at h
    | _ :: _ :: _ :: _ => rfl
  · intro cc h
    match country_code with
    | [] => simp [native_set_country_code] at h
    | [_] => simp [native_set_country_code] at h
    | [a, b] =>
      refine ⟨a, b, rfl, ?_⟩
      simp only [native_set_country_code] at h
      cases hv : validate [a, b] with
      | some c => rw [hv] at h; simp at h; rw [h]
      | none => rw [hv] at h; simp at h
    | _ :: _ :: _ :: _ => simp [native_set_country_code] at h

/-- Witness for C9: a 3-byte array fails under an accept-all validator, and
from a successful 2-byte call the accepted code is recovered. -/
theorem native_set_country_code_guard_witness :
    native_set_country_code (fun l => some l) [1, 2, 3] = .error .BadParameters ∧
    ∃ a b, ([65, 66] : List Nat) = [a, b] ∧
      (fun l : List Nat => some l) [a, b] = some [65, 66] :=
  ⟨(native_set_country_code_guard (fun l => some l) [1, 2, 3]).1 (by decide),
    (native_set_country_code_guard (fun l => some l) [65, 66]).2 [65, 66] rfl⟩

end UwbJni
